import Mathlib

/-!
Verification development for the genetic travelling-salesman engine
(genetic_utils.h and gen_tsp_detailed.cpp).

Modelling conventions:
* the flat row-major matrix generation[population*numNodes] is a list of rows
  (List (List Nat)); the C index generation[r*numNodes+j] is row r, position j;
* machine int becomes Int (costs) or Nat (indices); double becomes Rat --
  all double arithmetic in the source (averages, variance, thresholds) is
  modelled exactly over Rat;
* rand() is modelled by explicit draw values; a do-while redraw loop becomes
  a scan over a finite list of draws returning Option (none when the list of
  available draws is exhausted, i.e. the C loop would still be running);
* the comparison stdDev(w,len) <= p, whose left side is sqrt(var/len), is
  embedded as the decidable rational test (0 <= p and var/len <= p^2); the
  lemma stdDevLE_iff_sqrt proves it equal to the real sqrt comparison.
-/

namespace GeneticTsp

/-- AVGELEMS from gen_tsp_detailed.cpp: number of best costs averaged for
the early-stopping window. -/
def AVGELEMS : Nat := 5

/-- Mean of an array, as in the first loop of stdDev (genetic_utils.h). -/
def stdDevAvg (a : List ℚ) : ℚ := a.sum / (a.length : ℚ)

/-- Sum of squared deviations from the mean, as in the second loop of stdDev. -/
def stdDevVar (a : List ℚ) : ℚ :=
  (a.map (fun x => (x - stdDevAvg a) * (x - stdDevAvg a))).sum

/-- The quantity var/len whose square root stdDev (genetic_utils.h) returns. -/
def varOverLen (a : List ℚ) : ℚ := stdDevVar a / (a.length : ℚ)

/-- Value of stdDev (genetic_utils.h): sqrt(var/len), over the reals. -/
noncomputable def stdDev (a : List ℚ) : ℝ := Real.sqrt ((varOverLen a : ℚ) : ℝ)

/-- Decidable embedding of the branch test stdDev(array,len) <= p: since
sqrt(v) <= p over the reals iff 0 <= p and v <= p^2, the test is the
rational comparison below (see stdDevLE_iff_sqrt). -/
def stdDevLE (a : List ℚ) (p : ℚ) : Bool :=
  decide (0 ≤ p ∧ varOverLen a ≤ p * p)

/-- Insertion of one (cost, rank) pair into the already sorted prefix, as the
inner while loop of sort_vector (genetic_utils.h) does: the pair moves past
every strictly greater cost, hence lands after all pairs of cost <= its own. -/
def insertPair (a : ℤ × Nat) : List (ℤ × Nat) → List (ℤ × Nat)
  | [] => [a]
  | b :: t => if b.1 ≤ a.1 then b :: insertPair a t else a :: b :: t

/-- Insertion sort of (cost, rank) pairs keyed on cost, as sort_vector
(genetic_utils.h): elements are inserted left to right into a sorted prefix. -/
def sort_vector (l : List (ℤ × Nat)) : List (ℤ × Nat) :=
  l.foldl (fun acc a => insertPair a acc) []

/-- Cost of one tour row as accumulated by rank_generation (genetic_utils.h):
the wrap-around edge from the last node to the first, plus every adjacent
edge t[j] -> t[j+1]. -/
def tourCost (cost_matrix : Nat → Nat → ℤ) (numNodes : Nat) (t : List Nat) : ℤ :=
  cost_matrix (t.getD (numNodes - 1) 0) (t.getD 0 0)
    + ((List.range (numNodes - 1)).map
        (fun j => cost_matrix (t.getD j 0) (t.getD (j + 1) 0))).sum

/-- Cost-vector computation phase of rank_generation (genetic_utils.h):
generation_cost[i] += tourCost(row i).  Note the source adds onto the
previous contents of generation_cost; it never resets the entry to zero. -/
def computedCosts (generation_cost : List ℤ) (generation : List (List Nat))
    (cost_matrix : Nat → Nat → ℤ) (numNodes population : Nat) : List ℤ :=
  (List.range population).map
    (fun i => generation_cost.getD i 0 + tourCost cost_matrix numNodes (generation.getD i []))

/-- rank_generation (genetic_utils.h): accumulate tour costs into the cost
vector, initialise generation_rank[i] = i, and sort both arrays together by
cost; returns (sorted cost vector, sorted rank vector). -/
def rank_generation (generation_cost : List ℤ) (generation : List (List Nat))
    (cost_matrix : Nat → Nat → ℤ) (numNodes population : Nat) : List ℤ × List Nat :=
  let costs := computedCosts generation_cost generation cost_matrix numNodes population
  let sorted := sort_vector (costs.zip (List.range population))
  (sorted.map Prod.fst, sorted.map Prod.snd)

/-- move_top (genetic_utils.h): copy the best_num top-ranked rows of the
current buffer into the scratch buffer, then swap the two buffer pointers.
Result: (new current buffer, new scratch buffer).  Rows of the new current
buffer beyond best_num keep whatever the scratch buffer held. -/
def move_top (generation_rank : List Nat) (generation generation_copy : List (List Nat))
    (numNodes best_num : Nat) : List (List Nat) × List (List Nat) :=
  ((List.range generation_copy.length).map
      (fun i => if i < best_num then generation.getD (generation_rank.getD i 0) []
                else generation_copy.getD i []),
   generation)

/-- Mutable state of one run: the two permutation buffers (current and
scratch) and the persistent cost buffer generation_cost. -/
structure GAState where
  gen : List (List Nat)
  genCopy : List (List Nat)
  cost : List ℤ
deriving Repr, DecidableEq

/-- One ranking phase as invoked per generation by gen_tsp_detailed.cpp:
rank_generation followed by move_top with the buffer-pointer swap. -/
def rank_step (cost_matrix : Nat → Nat → ℤ) (numNodes population best_num : Nat)
    (s : GAState) : GAState :=
  let ranked := rank_generation s.cost s.gen cost_matrix numNodes population
  let moved := move_top ranked.2 s.gen s.genCopy numNodes best_num
  ⟨moved.1, moved.2, ranked.1⟩

/-- Draw loop of the form: v = rand() % bound; while (v == avoid) redraw.
Scans the supplied raw draws and returns the first value mod bound that
differs from avoid; none when every supplied draw is rejected. -/
def drawNe (bound avoid : Nat) : List Nat → Option Nat
  | [] => none
  | d :: rest => if d % bound = avoid then drawNe bound avoid rest else some (d % bound)

/-- Raw pseudo-random draws consumed by one reproduction slot: the parent1
draw, the parent2 redraw stream, the mutation-trigger draw rand()%100, the
first swap-position draw, and the second swap-position redraw stream. -/
structure SlotRand where
  p1Draw : Nat
  p2Draws : List Nat
  mutDraw : Nat
  swap1Draw : Nat
  swap2Draws : List Nat
deriving Repr

/-- Crossover body of crossover_firstHalf_withMutation (genetic_utils.h),
before mutation: the first floor(numNodes/2) nodes of the parent1 row in
order, then every node of the parent2 row not among them, in order. -/
def crossover_core (p1row p2row : List Nat) (numNodes : Nat) : List Nat :=
  let half := numNodes / 2
  let firstHalf := p1row.take half
  firstHalf ++ (p2row.take numNodes).filter (fun e => decide (e ∉ firstHalf))

/-- In-place two-position swap of the mutation step: new[a] gets old[b] and
new[b] gets old[a]. -/
def listSwap (l : List Nat) (a b : Nat) : List Nat :=
  (l.set a (l.getD b 0)).set b (l.getD a 0)

/-- crossover_firstHalf_withMutation (genetic_utils.h): build the child row
from the two parent rows of the generation matrix, then, when the draw
rand()%100+1 does not exceed mutatProb*100, swap two distinct positions
(the second redrawn until it differs from the first).  Returns none when the
redraw stream is exhausted (the C do-while would still be spinning). -/
def crossover_firstHalf_withMutation (generation : List (List Nat))
    (parent1 parent2 numNodes : Nat) (mutatProb : ℚ)
    (mutDraw swap1Draw : Nat) (swap2Draws : List Nat) : Option (List Nat) :=
  if ((mutDraw % 100 + 1 : Nat) : ℚ) ≤ mutatProb * 100 then
    match drawNe numNodes (swap1Draw % numNodes) swap2Draws with
    | none => none
    | some swap2 =>
        some (listSwap
          (crossover_core (generation.getD parent1 []) (generation.getD parent2 []) numNodes)
          (swap1Draw % numNodes) swap2)
  else
    some (crossover_core (generation.getD parent1 []) (generation.getD parent2 []) numNodes)

/-- Parent1 choice in generate (genetic_utils.h): slot i itself while
i < best_num (each best must generate at least one son), otherwise
rand() % best_num. -/
def selectParent1 (i best_num p1Draw : Nat) : Nat :=
  if i < best_num then i else p1Draw % best_num

/-- Collect a list of Option values; none as soon as one entry is none. -/
def sequenceOpt {α : Type} : List (Option α) → Option (List α)
  | [] => some []
  | none :: _ => none
  | some a :: t =>
    match sequenceOpt t with
    | none => none
    | some l => some (a :: l)

/-- generate (genetic_utils.h): rows below best_num are not written (the
model keeps them as they are); every row best_num + i with
i in [0, population - best_num) receives the crossover-with-mutation child
of parent1 = selectParent1 and parent2 = first accepted redraw differing
from the slot index i. -/
def generate (generation : List (List Nat)) (population best_num numNodes : Nat)
    (mutatProb : ℚ) (rnd : Nat → SlotRand) : Option (List (List Nat)) :=
  sequenceOpt ((List.range population).map (fun r =>
    if r < best_num then some (generation.getD r [])
    else
      match drawNe best_num (r - best_num) (rnd (r - best_num)).p2Draws with
      | none => none
      | some parent2 =>
          crossover_firstHalf_withMutation generation
            (selectParent1 (r - best_num) best_num (rnd (r - best_num)).p1Draw) parent2
            numNodes mutatProb (rnd (r - best_num)).mutDraw (rnd (r - best_num)).swap1Draw
            (rnd (r - best_num)).swap2Draws))

/-- Average of the best AVGELEMS entries of the (sorted) cost vector,
computed by the loop at gen_tsp_detailed.cpp lines 90-94. -/
def windowAvg (generation_cost : List ℤ) : ℚ :=
  ((List.range AVGELEMS).map
    (fun j => ((generation_cost.getD j 0 : ℤ) : ℚ))).sum / (AVGELEMS : ℚ)

/-- Convergence-controller step of the generation loop
(gen_tsp_detailed.cpp, lines 89-100): average the best AVGELEMS sorted
costs, write the average into window slot (i-1) mod earlyStopRounds, and
signal convergence iff i >= earlyStopRounds and the window standard
deviation is at most earlyStopParam (short-circuit conjunction). -/
def observeStep (generation_cost : List ℤ) (lastRounds : List ℚ)
    (i earlyStopRounds : Nat) (earlyStopParam : ℚ) : List ℚ × Bool :=
  (lastRounds.set ((i - 1) % earlyStopRounds) (windowAvg generation_cost),
   decide (earlyStopRounds ≤ i) &&
     stdDevLE (lastRounds.set ((i - 1) % earlyStopRounds) (windowAvg generation_cost))
       earlyStopParam)

/-- best_num = population*top as computed in genetic_tsp: the double product
truncated to int (both factors nonnegative, so truncation is the floor). -/
def bestNumOf (population : Nat) (top : ℚ) : Nat := (⌊(population : ℚ) * top⌋).toNat

/-- Solution record returned by genetic_tsp: best tour, its cost entry, and
the converged flag solution[numNodes+1]. -/
structure Solution where
  tour : List Nat
  cost : ℤ
  converged : Bool
deriving Repr, DecidableEq

/-- Generation loop of genetic_tsp (gen_tsp_detailed.cpp, lines 72-101),
iteration counter i starting at 1, fuel = remaining iterations up to maxIt:
generate, rank (with buffer swap), window update, early-stop test.  Returns
the final state and the converged flag; none when some redraw loop never
terminates. -/
def gtspLoop (cost_matrix : Nat → Nat → ℤ) (numNodes population best_num : Nat)
    (mutatProb : ℚ) (earlyStopRounds : Nat) (earlyStopParam : ℚ)
    (rnd : Nat → Nat → SlotRand) :
    Nat → Nat → GAState → List ℚ → Option (GAState × Bool)
  | _, 0, s, _ => some (s, false)
  | i, fuel + 1, s, lastRounds =>
    match generate s.gen population best_num numNodes mutatProb (rnd i) with
    | none => none
    | some gen2 =>
      let s1 := rank_step cost_matrix numNodes population best_num ⟨gen2, s.genCopy, s.cost⟩
      let ob := observeStep s1.cost lastRounds i earlyStopRounds earlyStopParam
      if ob.2 then some (s1, true)
      else gtspLoop cost_matrix numNodes population best_num mutatProb
        earlyStopRounds earlyStopParam rnd (i + 1) fuel s1 ob.1

/-- genetic_tsp (gen_tsp_detailed.cpp): first ranking, the degenerate
early return when best_num equals population (not-converged), otherwise the
generation loop; the returned Solution copies the first numNodes ints of
row 0 plus cost entry 0 and the converged flag.  gen0 is the shuffled
initial population; copy0, cost0 and window0 model the indeterminate
initial contents of the scratch buffer, of generation_cost and of
lastRounds (the source allocates them without initialising). -/
def genetic_tsp (cost_matrix : Nat → Nat → ℤ) (numNodes population : Nat)
    (top : ℚ) (maxIt : Nat) (mutatProb : ℚ) (earlyStopRounds : Nat)
    (earlyStopParam : ℚ) (gen0 copy0 : List (List Nat)) (cost0 : List ℤ)
    (window0 : List ℚ) (rnd : Nat → Nat → SlotRand) : Option Solution :=
  if population = bestNumOf population top then
    some ⟨((rank_step cost_matrix numNodes population (bestNumOf population top)
        ⟨gen0, copy0, cost0⟩).gen.getD 0 []).take numNodes,
      (rank_step cost_matrix numNodes population (bestNumOf population top)
        ⟨gen0, copy0, cost0⟩).cost.getD 0 0, false⟩
  else
    match gtspLoop cost_matrix numNodes population (bestNumOf population top) mutatProb
        earlyStopRounds earlyStopParam rnd 1 maxIt
        (rank_step cost_matrix numNodes population (bestNumOf population top)
          ⟨gen0, copy0, cost0⟩) window0 with
    | none => none
    | some (sF, conv) => some ⟨(sF.gen.getD 0 []).take numNodes, sF.cost.getD 0 0, conv⟩

/-- Truncation of a double toward zero when assigned to a C int. -/
def truncQ (q : ℚ) : ℤ := if 0 ≤ q then ⌊q⌋ else ⌈q⌉

/-- Command-line configuration of main (gen_tsp_detailed.cpp) after parsing:
ints for numThreads, numNodes, population, maxIt, earlyStopRounds; doubles
for top and mutatProb.  earlyStopParam keeps the parsed double here; the
variable that main stores it into is declared int, so validation and the
engine see truncQ of it (see validate). -/
structure Config where
  numThreads : ℤ
  numNodes : ℤ
  population : ℤ
  top : ℚ
  maxIt : ℤ
  mutatProb : ℚ
  earlyStopRounds : ℤ
  earlyStopParam : ℚ
deriving Repr

/-- Validation test of main (gen_tsp_detailed.cpp, lines 137-147): true
exactly when main proceeds to run the engine, false when it prints Invalid
arguments and exits with status 1.  earlyStopParam has been truncated to
int by the assignment earlyStopParam = atof(argv[8]). -/
def validate (c : Config) : Bool :=
  !(c.numThreads < 1 ∨
    c.top < 0 ∨ 1 < c.top ∨
    c.population < (AVGELEMS : ℤ) ∨
    c.numNodes ≤ 1 ∨
    c.maxIt < 0 ∨
    c.mutatProb < 0 ∨ 1 < c.mutatProb ∨
    c.maxIt < c.earlyStopRounds ∨ c.earlyStopRounds ≤ 0 ∨
    truncQ c.earlyStopParam < 0 : Bool)

/-- Modelled from the spec, section 6: the constraints the configuration
must satisfy, on the exact parsed values (earlyStopThreshold is the real
threshold, before any int truncation). -/
def specValid (c : Config) : Prop :=
  1 ≤ c.numThreads ∧ 2 ≤ c.numNodes ∧ (5 : ℤ) ≤ c.population ∧
  0 ≤ c.top ∧ c.top ≤ 1 ∧ 0 ≤ c.maxIt ∧
  0 ≤ c.mutatProb ∧ c.mutatProb ≤ 1 ∧
  0 < c.earlyStopRounds ∧ c.earlyStopRounds ≤ c.maxIt ∧
  0 ≤ c.earlyStopParam

instance (c : Config) : Decidable (specValid c) := by
  unfold specValid; infer_instance

/-- Mutation trigger of crossover_firstHalf_withMutation: the draw d plays
the role of rand(), so the tested value is d%100+1 against mutatProb*100. -/
def mutationTriggered (d : Nat) (mutatProb : ℚ) : Bool :=
  decide (((d % 100 + 1 : Nat) : ℚ) ≤ mutatProb * 100)

/-! Helper lemmas. -/

lemma getD_map_range {α : Type} (f : Nat → α) (d : α) {k n : Nat} (hk : k < n) :
    ((List.range n).map f).getD k d = f k := by
  rw [List.getD_eq_getElem?_getD, List.getElem?_map, List.getElem?_range hk]
  rfl

lemma sequenceOpt_some {α : Type} (d : α) :
    ∀ (l : List (Option α)) (l2 : List α), sequenceOpt l = some l2 →
      l2.length = l.length ∧ ∀ k, k < l.length → l.getD k none = some (l2.getD k d)
  | [], l2, h => by
      simp only [sequenceOpt, Option.some.injEq] at h
      subst h
      exact ⟨rfl, fun k hk => absurd hk (Nat.not_lt_zero k)⟩
  | o :: t, l2, h => by
      cases o with
      | none => simp [sequenceOpt] at h
      | some a =>
        cases ht : sequenceOpt t with
        | none => rw [sequenceOpt, ht] at h; simp at h
        | some tl =>
          rw [sequenceOpt, ht] at h
          simp only [Option.some.injEq] at h
          obtain ⟨h1, h2⟩ := sequenceOpt_some d t tl ht
          subst h
          refine ⟨by simp [h1], fun k hk => ?_⟩
          cases k with
          | zero => rfl
          | succ k2 =>
            simpa using h2 k2 (by simpa using hk)

lemma drawNe_some : ∀ (bound avoid : Nat) (ds : List Nat) (v : Nat),
    drawNe bound avoid ds = some v → v ≠ avoid ∧ (0 < bound → v < bound)
  | _, _, [], _, h => by simp [drawNe] at h
  | bound, avoid, d :: rest, v, h => by
      by_cases hd : d % bound = avoid
      · rw [drawNe, if_pos hd] at h
        exact drawNe_some bound avoid rest v h
      · rw [drawNe, if_neg hd] at h
        obtain rfl : d % bound = v := by simpa using h
        exact ⟨hd, fun hb => Nat.mod_lt d hb⟩

lemma getD_cons_set_perm : ∀ (t : List Nat) (j : Nat) (h : Nat), j < t.length →
    (t.getD j 0 :: t.set j h).Perm (h :: t)
  | [], j, _, hj => absurd hj (Nat.not_lt_zero j)
  | x :: t2, 0, h, _ => by
      simpa using List.Perm.swap h x t2
  | x :: t2, j + 1, h, hj => by
      have hj2 : j < t2.length := by simpa using hj
      simp only [List.getD_cons_succ, List.set_cons_succ]
      exact (List.Perm.swap x (t2.getD j 0) (t2.set j h)).trans
        ((List.Perm.cons x (getD_cons_set_perm t2 j h hj2)).trans (List.Perm.swap h x t2))

lemma listSwap_perm : ∀ (l : List Nat) (a b : Nat), a < l.length → b < l.length →
    (listSwap l a b).Perm l
  | [], a, _, ha, _ => absurd ha (Nat.not_lt_zero a)
  | h :: t, 0, 0, _, _ => by
      simp [listSwap]
  | h :: t, 0, b + 1, _, hb => by
      have hb2 : b < t.length := by simpa using hb
      simp only [listSwap, List.getD_cons_succ, List.getD_cons_zero, List.set_cons_zero,
        List.set_cons_succ]
      exact getD_cons_set_perm t b h hb2
  | h :: t, a + 1, 0, ha, _ => by
      have ha2 : a < t.length := by simpa using ha
      simp only [listSwap, List.getD_cons_succ, List.getD_cons_zero, List.set_cons_zero,
        List.set_cons_succ]
      exact getD_cons_set_perm t a h ha2
  | h :: t, a + 1, b + 1, ha, hb => by
      have ha2 : a < t.length := by simpa using ha
      have hb2 : b < t.length := by simpa using hb
      simp only [listSwap, List.getD_cons_succ, List.set_cons_succ]
      exact List.Perm.cons h (listSwap_perm t a b ha2 hb2)

lemma insertPair_perm (a : ℤ × Nat) : ∀ l : List (ℤ × Nat), (insertPair a l).Perm (a :: l)
  | [] => List.Perm.refl _
  | b :: t => by
      by_cases hba : b.1 ≤ a.1
      · rw [insertPair, if_pos hba]
        exact (List.Perm.cons b (insertPair_perm a t)).trans (List.Perm.swap a b t)
      · rw [insertPair, if_neg hba]

lemma insertPair_pairwise (a : ℤ × Nat) :
    ∀ l : List (ℤ × Nat), l.Pairwise (fun x y => x.1 ≤ y.1) →
      (insertPair a l).Pairwise (fun x y => x.1 ≤ y.1)
  | [], _ => by simp [insertPair]
  | b :: t, hl => by
      rw [List.pairwise_cons] at hl
      obtain ⟨hb, ht⟩ := hl
      by_cases hba : b.1 ≤ a.1
      · rw [insertPair, if_pos hba, List.pairwise_cons]
        refine ⟨fun x hx => ?_, insertPair_pairwise a t ht⟩
        have hx2 : x = a ∨ x ∈ t := by
          simpa using (insertPair_perm a t).mem_iff.mp hx
        rcases hx2 with rfl | hx2
        · exact hba
        · exact hb x hx2
      · rw [insertPair, if_neg hba, List.pairwise_cons]
        push_neg at hba
        refine ⟨fun x hx => ?_, List.pairwise_cons.mpr ⟨hb, ht⟩⟩
        rcases List.mem_cons.mp hx with rfl | hx2
        · exact le_of_lt hba
        · exact le_trans (le_of_lt hba) (hb x hx2)

lemma insertPair_filter (a : ℤ × Nat) (cst : ℤ) :
    ∀ l : List (ℤ × Nat), l.Pairwise (fun x y => x.1 ≤ y.1) →
      (insertPair a l).filter (fun p => decide (p.1 = cst)) =
        if a.1 = cst then l.filter (fun p => decide (p.1 = cst)) ++ [a]
        else l.filter (fun p => decide (p.1 = cst))
  | [], _ => by
      by_cases hac : a.1 = cst <;> simp [insertPair, hac]
  | b :: t, hl => by
      rw [List.pairwise_cons] at hl
      obtain ⟨hb, ht⟩ := hl
      by_cases hba : b.1 ≤ a.1
      · rw [insertPair, if_pos hba, List.filter_cons, List.filter_cons,
          insertPair_filter a cst t ht]
        by_cases hbc : b.1 = cst <;> by_cases hac : a.1 = cst <;> simp [hbc, hac]
      · rw [insertPair, if_neg hba]
        push_neg at hba
        by_cases hac : a.1 = cst
        · have hnil : (b :: t).filter (fun p => decide (p.1 = cst)) = [] := by
            rw [List.filter_eq_nil_iff]
            intro x hx
            rcases List.mem_cons.mp hx with rfl | hx2
            · simp only [decide_eq_true_iff]
              intro hxc
              omega
            · have hbx := hb x hx2
              simp only [decide_eq_true_iff]
              intro hxc
              omega
          rw [if_pos hac, hnil, List.filter_cons, if_pos (by simpa using hac), hnil]
          rfl
        · rw [if_neg hac, List.filter_cons, if_neg (by simpa using hac)]

lemma sort_foldl_props :
    ∀ (l acc : List (ℤ × Nat)), acc.Pairwise (fun x y => x.1 ≤ y.1) →
      (List.foldl (fun acc2 a => insertPair a acc2) acc l).Pairwise (fun x y => x.1 ≤ y.1) ∧
      (List.foldl (fun acc2 a => insertPair a acc2) acc l).Perm (acc ++ l) ∧
      ∀ cst, (List.foldl (fun acc2 a => insertPair a acc2) acc l).filter
          (fun p => decide (p.1 = cst)) =
        acc.filter (fun p => decide (p.1 = cst)) ++ l.filter (fun p => decide (p.1 = cst))
  | [], acc, ha => by simp [ha]
  | a :: l, acc, ha => by
      have hins := insertPair_pairwise a acc ha
      obtain ⟨h1, h2, h3⟩ := sort_foldl_props l (insertPair a acc) hins
      rw [List.foldl_cons]
      refine ⟨h1, ?_, ?_⟩
      · refine (h2.trans ((List.Perm.append_right l (insertPair_perm a acc)).trans ?_))
        exact List.perm_middle.symm
      · intro cst
        rw [h3 cst, insertPair_filter a cst acc ha, List.filter_cons]
        by_cases hac : a.1 = cst <;> simp [hac]

lemma sort_vector_pairwise (l : List (ℤ × Nat)) :
    (sort_vector l).Pairwise (fun x y => x.1 ≤ y.1) :=
  (sort_foldl_props l [] List.Pairwise.nil).1

lemma sort_vector_perm (l : List (ℤ × Nat)) : (sort_vector l).Perm l := by
  simpa using (sort_foldl_props l [] List.Pairwise.nil).2.1

lemma sort_vector_filter (l : List (ℤ × Nat)) (cst : ℤ) :
    (sort_vector l).filter (fun p => decide (p.1 = cst)) =
      l.filter (fun p => decide (p.1 = cst)) := by
  simpa using (sort_foldl_props l [] List.Pairwise.nil).2.2 cst

lemma crossover_core_perm (p1row p2row : List Nat) (numNodes : Nat)
    (h1 : p1row.Perm (List.range numNodes)) (h2 : p2row.Perm (List.range numNodes)) :
    (crossover_core p1row p2row numNodes).Perm (List.range numNodes) := by
  have h2len : p2row.length = numNodes := by simpa using h2.length_eq
  have hnodup1 : p1row.Nodup := h1.symm.nodup (List.nodup_range numNodes)
  have hfh : (p1row.take (numNodes / 2)).Nodup :=
    List.Nodup.sublist (List.take_sublist _ _) hnodup1
  have htake : p2row.take numNodes = p2row := by
    rw [← h2len]; exact List.take_length p2row
  rw [List.perm_iff_count]
  intro x
  rw [crossover_core]
  simp only [htake]
  rw [List.count_append]
  by_cases hx : x ∈ p1row.take (numNodes / 2)
  · have hc1 : List.count x (p1row.take (numNodes / 2)) = 1 :=
      List.count_eq_one_of_mem hfh hx
    have hcf : List.count x
        (p2row.filter (fun e => decide (e ∉ p1row.take (numNodes / 2)))) = 0 := by
      rw [List.count_eq_zero]
      intro hmem
      rw [List.mem_filter] at hmem
      have hnot : x ∉ p1row.take (numNodes / 2) := by simpa using hmem.2
      exact hnot hx
    have hxr : x ∈ List.range numNodes := h1.mem_iff.mp (List.mem_of_mem_take hx)
    rw [hc1, hcf, List.count_eq_one_of_mem (List.nodup_range numNodes) hxr]
  · have hc1 : List.count x (p1row.take (numNodes / 2)) = 0 := List.count_eq_zero.mpr hx
    have hcf : List.count x
        (p2row.filter (fun e => decide (e ∉ p1row.take (numNodes / 2)))) =
        List.count x p2row := List.count_filter (by simpa using hx)
    rw [hc1, hcf, Nat.zero_add]
    exact (List.perm_iff_count.mp h2) x

lemma crossover_mut_perm (generation : List (List Nat)) (parent1 parent2 numNodes : Nat)
    (mutatProb : ℚ) (mutDraw swap1Draw : Nat) (swap2Draws : List Nat) (child : List Nat)
    (h1 : (generation.getD parent1 []).Perm (List.range numNodes))
    (h2 : (generation.getD parent2 []).Perm (List.range numNodes))
    (hc : crossover_firstHalf_withMutation generation parent1 parent2 numNodes mutatProb
      mutDraw swap1Draw swap2Draws = some child) :
    child.Perm (List.range numNodes) := by
  have hcore := crossover_core_perm _ _ numNodes h1 h2
  rw [crossover_firstHalf_withMutation] at hc
  by_cases hmut : ((mutDraw % 100 + 1 : Nat) : ℚ) ≤ mutatProb * 100
  · rw [if_pos hmut] at hc
    cases hdr : drawNe numNodes (swap1Draw % numNodes) swap2Draws with
    | none => rw [hdr] at hc; simp at hc
    | some s2 =>
      rw [hdr] at hc
      simp only [Option.some.injEq] at hc
      subst hc
      rcases Nat.eq_zero_or_pos numNodes with hn0 | hn
      · subst hn0
        have hnil : crossover_core (generation.getD parent1 [])
            (generation.getD parent2 []) 0 = [] :=
          List.length_eq_zero.mp (by simpa using hcore.length_eq)
        rw [hnil]
        exact List.Perm.nil
      · have hlen : (crossover_core (generation.getD parent1 [])
            (generation.getD parent2 []) numNodes).length = numNodes := by
          simpa using hcore.length_eq
        have hs1 : swap1Draw % numNodes < numNodes := Nat.mod_lt _ hn
        have hs2 : s2 < numNodes := (drawNe_some _ _ _ _ hdr).2 hn
        exact (listSwap_perm _ _ _ (by rw [hlen]; exact hs1)
          (by rw [hlen]; exact hs2)).trans hcore
  · rw [if_neg hmut] at hc
    simp only [Option.some.injEq] at hc
    subst hc
    exact hcore

lemma generate_getD (generation : List (List Nat)) (population best_num numNodes : Nat)
    (mutatProb : ℚ) (rnd : Nat → SlotRand) (gen2 : List (List Nat))
    (h : generate generation population best_num numNodes mutatProb rnd = some gen2) :
    gen2.length = population ∧
    ∀ r, r < population →
      (r < best_num → gen2.getD r [] = generation.getD r []) ∧
      (best_num ≤ r →
        ∃ parent2,
          drawNe best_num (r - best_num) ((rnd (r - best_num)).p2Draws) = some parent2 ∧
          crossover_firstHalf_withMutation generation
            (selectParent1 (r - best_num) best_num ((rnd (r - best_num)).p1Draw)) parent2
            numNodes mutatProb ((rnd (r - best_num)).mutDraw)
            ((rnd (r - best_num)).swap1Draw) ((rnd (r - best_num)).swap2Draws) =
            some (gen2.getD r [])) := by
  rw [generate] at h
  obtain ⟨hlen, hget⟩ := sequenceOpt_some ([] : List Nat) _ _ h
  have hlen2 : gen2.length = population := by simpa using hlen
  refine ⟨hlen2, fun r hr => ?_⟩
  have hmap : r < ((List.range population).map (fun r =>
      if r < best_num then some (generation.getD r [])
      else
        match drawNe best_num (r - best_num) ((rnd (r - best_num)).p2Draws) with
        | none => none
        | some parent2 =>
            crossover_firstHalf_withMutation generation
              (selectParent1 (r - best_num) best_num ((rnd (r - best_num)).p1Draw)) parent2
              numNodes mutatProb ((rnd (r - best_num)).mutDraw)
              ((rnd (r - best_num)).swap1Draw) ((rnd (r - best_num)).swap2Draws))).length := by
    simpa using hr
  have hfr := hget r hmap
  rw [getD_map_range _ none hr] at hfr
  constructor
  · intro hrb
    rw [if_pos hrb] at hfr
    exact (Option.some.inj hfr).symm
  · intro hrb
    rw [if_neg (Nat.not_lt.mpr hrb)] at hfr
    cases hdr : drawNe best_num (r - best_num) ((rnd (r - best_num)).p2Draws) with
    | none => rw [hdr] at hfr; simp at hfr
    | some parent2 =>
      rw [hdr] at hfr
      exact ⟨parent2, rfl, hfr⟩

lemma crossover_congr (g1 g2 : List (List Nat)) (p1 p2 n : Nat) (q : ℚ)
    (md sd : Nat) (sds : List Nat)
    (h1 : g1.getD p1 [] = g2.getD p1 []) (h2 : g1.getD p2 [] = g2.getD p2 []) :
    crossover_firstHalf_withMutation g1 p1 p2 n q md sd sds =
      crossover_firstHalf_withMutation g2 p1 p2 n q md sd sds := by
  simp only [crossover_firstHalf_withMutation, crossover_core, h1, h2]

lemma generate_congr (g1 g2 : List (List Nat)) (population best_num numNodes : Nat)
    (mutatProb : ℚ) (rnd : Nat → SlotRand) (hbn : 0 < best_num)
    (hag : ∀ r, r < best_num → g1.getD r [] = g2.getD r []) :
    generate g1 population best_num numNodes mutatProb rnd =
      generate g2 population best_num numNodes mutatProb rnd := by
  rw [generate, generate]
  congr 1
  apply List.map_congr_left
  intro r _
  by_cases hrb : r < best_num
  · rw [if_pos hrb, if_pos hrb, hag r hrb]
  · rw [if_neg hrb, if_neg hrb]
    cases hdr : drawNe best_num (r - best_num) ((rnd (r - best_num)).p2Draws) with
    | none => rfl
    | some parent2 =>
      have hp2 : parent2 < best_num := (drawNe_some _ _ _ _ hdr).2 hbn
      have hp1 : selectParent1 (r - best_num) best_num ((rnd (r - best_num)).p1Draw)
          < best_num := by
        rw [selectParent1]
        split
        · assumption
        · exact Nat.mod_lt _ hbn
      exact crossover_congr g1 g2 _ parent2 numNodes mutatProb _ _ _
        (hag _ hp1) (hag _ hp2)

lemma move_top_spec (rank : List Nat) (gen genCopy : List (List Nat))
    (numNodes best_num : Nat) :
    (move_top rank gen genCopy numNodes best_num).2 = gen ∧
    ∀ r, r < genCopy.length →
      (move_top rank gen genCopy numNodes best_num).1.getD r [] =
        if r < best_num then gen.getD (rank.getD r 0) [] else genCopy.getD r [] := by
  refine ⟨rfl, fun r hr => ?_⟩
  rw [move_top]
  exact getD_map_range _ _ hr

lemma rank_generation_cost_pairwise (gc : List ℤ) (gen : List (List Nat))
    (cm : Nat → Nat → ℤ) (n pop : Nat) :
    (rank_generation gc gen cm n pop).1.Pairwise (fun a b : ℤ => a ≤ b) := by
  rw [rank_generation]
  exact List.Pairwise.map _ (fun a b h => h) (sort_vector_pairwise _)

lemma rank_generation_head (gc : List ℤ) (gen : List (List Nat)) (cm : Nat → Nat → ℤ)
    (n pop : Nat) (hpop : 0 < pop) :
    ∃ r, r < pop ∧
      (rank_generation gc gen cm n pop).2.getD 0 0 = r ∧
      (rank_generation gc gen cm n pop).1.getD 0 0 =
        (computedCosts gc gen cm n pop).getD r 0 ∧
      ∀ j, j < pop → (computedCosts gc gen cm n pop).getD r 0 ≤
        (computedCosts gc gen cm n pop).getD j 0 := by
  have hclen : (computedCosts gc gen cm n pop).length = pop := by
    rw [computedCosts]; simp
  have hplen : ((computedCosts gc gen cm n pop).zip (List.range pop)).length = pop := by
    rw [List.length_zip, hclen, List.length_range, min_self]
  have hperm := sort_vector_perm ((computedCosts gc gen cm n pop).zip (List.range pop))
  have hslen : (sort_vector ((computedCosts gc gen cm n pop).zip (List.range pop))).length
      = pop := by rw [hperm.length_eq, hplen]
  obtain ⟨a, t, hat⟩ := List.exists_cons_of_ne_nil
    (List.ne_nil_of_length_pos (by rw [hslen]; exact hpop))
  have hmema : a ∈ (computedCosts gc gen cm n pop).zip (List.range pop) :=
    hperm.mem_iff.mp (by rw [hat]; exact List.mem_cons_self a t)
  obtain ⟨k, hk, hak⟩ := List.mem_iff_getElem.mp hmema
  have hkpop : k < pop := by rw [hplen] at hk; exact hk
  have hkc : k < (computedCosts gc gen cm n pop).length := by rw [hclen]; exact hkpop
  have hae : a = ((computedCosts gc gen cm n pop).getD k 0, k) := by
    rw [← hak, List.getElem_zip, List.getElem_range, List.getD_eq_getElem _ _ hkc]
  refine ⟨k, hkpop, ?_, ?_, ?_⟩
  · rw [rank_generation]
    simp only [hat, List.map_cons, List.getD_cons_zero, hae]
  · rw [rank_generation]
    simp only [hat, List.map_cons, List.getD_cons_zero, hae]
  · intro j hj
    have hjc : j < (computedCosts gc gen cm n pop).length := by rw [hclen]; exact hj
    have hjz : j < ((computedCosts gc gen cm n pop).zip (List.range pop)).length := by
      rw [hplen]; exact hj
    have hjr : j < (List.range pop).length := by rw [List.length_range]; exact hj
    have hmemj : ((computedCosts gc gen cm n pop).getD j 0, j) ∈
        sort_vector ((computedCosts gc gen cm n pop).zip (List.range pop)) := by
      apply hperm.symm.mem_iff.mp
      rw [List.mem_iff_getElem]
      exact ⟨j, hjz, by rw [List.getElem_zip, List.getElem_range,
        List.getD_eq_getElem _ _ hjc]⟩
    rw [hat] at hmemj
    have hsorted := sort_vector_pairwise ((computedCosts gc gen cm n pop).zip (List.range pop))
    rw [hat, List.pairwise_cons] at hsorted
    rcases List.mem_cons.mp hmemj with heq | hmemt
    · have : (computedCosts gc gen cm n pop).getD k 0 =
          (computedCosts gc gen cm n pop).getD j 0 := by
        have := congrArg Prod.fst heq
        rw [hae] at this
        exact this.symm
      exact le_of_eq this
    · have := hsorted.1 _ hmemt
      rw [hae] at this
      exact this

lemma rank_step_head (cm : Nat → Nat → ℤ) (n pop bn : Nat) (s : GAState)
    (hpop : 0 < pop) (hbn : 0 < bn) (hcopy : s.genCopy.length = pop) :
    ∃ r, r < pop ∧
      (rank_step cm n pop bn s).gen.getD 0 [] = s.gen.getD r [] ∧
      (rank_step cm n pop bn s).cost.getD 0 0 =
        (computedCosts s.cost s.gen cm n pop).getD r 0 ∧
      ∀ j, j < pop → (computedCosts s.cost s.gen cm n pop).getD r 0 ≤
        (computedCosts s.cost s.gen cm n pop).getD j 0 := by
  obtain ⟨r, hr, hrank0, hcost0, hmin⟩ := rank_generation_head s.cost s.gen cm n pop hpop
  refine ⟨r, hr, ?_, hcost0, hmin⟩
  have hmt := (move_top_spec (rank_generation s.cost s.gen cm n pop).2 s.gen s.genCopy n bn).2
    0 (by rw [hcopy]; exact hpop)
  rw [rank_step]
  simp only []
  rw [hmt, if_pos hbn, hrank0]

lemma varOverLen_nonneg (w : List ℚ) : 0 ≤ varOverLen w := by
  rw [varOverLen, stdDevVar]
  apply div_nonneg
  · apply List.sum_nonneg
    intro x hx
    rw [List.mem_map] at hx
    obtain ⟨y, _, rfl⟩ := hx
    exact mul_self_nonneg _
  · exact_mod_cast Nat.zero_le _

lemma stdDevLE_iff_sqrt (w : List ℚ) (p : ℚ) :
    stdDevLE w p = true ↔ stdDev w ≤ (p : ℝ) := by
  rw [stdDevLE, decide_eq_true_iff, stdDev, Real.sqrt_le_iff, pow_two]
  constructor
  · rintro ⟨hp, hv⟩
    exact ⟨by exact_mod_cast hp, by exact_mod_cast hv⟩
  · rintro ⟨hp, hv⟩
    exact ⟨by exact_mod_cast hp, by exact_mod_cast hv⟩

/-! The claim theorems. -/

/-- C1: the child produced by crossover-with-mutation from two parent rows
that are permutations of 0..numNodes-1 is itself such a permutation, and
consequently, whenever the elite rows of the buffer are permutation tours,
every row of the buffer produced by generate is a permutation tour (elite
rows kept, every other row rebuilt from elite parents). -/
theorem claim_C1 :
    (∀ (generation : List (List Nat)) (parent1 parent2 numNodes : Nat) (mutatProb : ℚ)
        (mutDraw swap1Draw : Nat) (swap2Draws : List Nat) (child : List Nat),
      (generation.getD parent1 []).Perm (List.range numNodes) →
      (generation.getD parent2 []).Perm (List.range numNodes) →
      crossover_firstHalf_withMutation generation parent1 parent2 numNodes mutatProb
        mutDraw swap1Draw swap2Draws = some child →
      child.Perm (List.range numNodes)) ∧
    (∀ (generation : List (List Nat)) (population best_num numNodes : Nat) (mutatProb : ℚ)
        (rnd : Nat → SlotRand) (gen2 : List (List Nat)),
      0 < best_num →
      (∀ r, r < best_num → (generation.getD r []).Perm (List.range numNodes)) →
      generate generation population best_num numNodes mutatProb rnd = some gen2 →
      ∀ r, r < population → (gen2.getD r []).Perm (List.range numNodes)) := by
  constructor
  · exact fun g p1 p2 n q md sd sds child h1 h2 hc =>
      crossover_mut_perm g p1 p2 n q md sd sds child h1 h2 hc
  · intro g pop bn n q rnd g2 hbn hrows hgen r hr
    obtain ⟨hlen, hget⟩ := generate_getD g pop bn n q rnd g2 hgen
    obtain ⟨helite, hchild⟩ := hget r hr
    by_cases hrb : r < bn
    · rw [helite hrb]
      exact hrows r hrb
    · obtain ⟨p2, hdr, hx⟩ := hchild (Nat.not_lt.mp hrb)
      have hp2 : p2 < bn := (drawNe_some _ _ _ _ hdr).2 hbn
      have hp1lt : selectParent1 (r - bn) bn ((rnd (r - bn)).p1Draw) < bn := by
        rw [selectParent1]
        split
        · assumption
        · exact Nat.mod_lt _ hbn
      exact crossover_mut_perm g _ p2 n q _ _ _ _
        (hrows _ hp1lt) (hrows _ hp2) hx

theorem claim_C1_witness : ([0, 3, 1, 2] : List Nat).Perm (List.range 4) :=
  claim_C1.1 [[0, 1, 2, 3], [3, 2, 1, 0]] 0 1 4 1 0 1 [2] [0, 3, 1, 2]
    (by decide) (by decide)
    (by norm_num [crossover_firstHalf_withMutation, crossover_core, drawNe, listSwap])

/-- C2: the cost the Ranking Engine computes is NOT the bare edge sum of
the tour: generation_cost is never reset, so a second ranking pass over
the same population doubles every entry.  With the 2-node matrix of
all-ones off the diagonal, tour [0,1] has edge sum 2, the first ranking
stores 2, and the second ranking stores 4. -/
theorem claim_C2_cost_accumulates :
    tourCost (fun i j : Nat => if i = j then 0 else 1) 2 [0, 1] = 2 ∧
    (rank_step (fun i j : Nat => if i = j then 0 else 1) 2 5 2
      ⟨[[0,1],[0,1],[0,1],[0,1],[0,1]], [[0,1],[0,1],[0,1],[0,1],[0,1]],
       [0,0,0,0,0]⟩).cost = [2,2,2,2,2] ∧
    (rank_step (fun i j : Nat => if i = j then 0 else 1) 2 5 2
      (rank_step (fun i j : Nat => if i = j then 0 else 1) 2 5 2
        ⟨[[0,1],[0,1],[0,1],[0,1],[0,1]], [[0,1],[0,1],[0,1],[0,1],[0,1]],
         [0,0,0,0,0]⟩)).cost = [4,4,4,4,4] :=
  ⟨rfl, rfl, rfl⟩

/-- C3: the convergence controller writes the best-AVGELEMS average into
window slot (i-1) mod earlyStopRounds leaving every other slot unchanged,
and signals convergence exactly when i is at least earlyStopRounds and the
window standard deviation (real square root of var/len) is at most
earlyStopParam; for i below earlyStopRounds the signal is false whatever
the window holds. -/
theorem claim_C3 (generation_cost : List ℤ) (lastRounds : List ℚ)
    (i earlyStopRounds : Nat) (earlyStopParam : ℚ)
    (hr : 0 < earlyStopRounds) (hw : lastRounds.length = earlyStopRounds) :
    (observeStep generation_cost lastRounds i earlyStopRounds earlyStopParam).1.length =
      lastRounds.length ∧
    (observeStep generation_cost lastRounds i earlyStopRounds earlyStopParam).1.getD
      ((i - 1) % earlyStopRounds) 0 = windowAvg generation_cost ∧
    (∀ k, k < earlyStopRounds → k ≠ (i - 1) % earlyStopRounds →
      (observeStep generation_cost lastRounds i earlyStopRounds earlyStopParam).1.getD k 0 =
        lastRounds.getD k 0) ∧
    ((observeStep generation_cost lastRounds i earlyStopRounds earlyStopParam).2 = true ↔
      (earlyStopRounds ≤ i ∧
        stdDev (observeStep generation_cost lastRounds i earlyStopRounds earlyStopParam).1 ≤
          (earlyStopParam : ℝ))) ∧
    (i < earlyStopRounds →
      (observeStep generation_cost lastRounds i earlyStopRounds earlyStopParam).2 = false) := by
  have hslot : (i - 1) % earlyStopRounds < lastRounds.length := by
    rw [hw]
    exact Nat.mod_lt _ hr
  refine ⟨by simp [observeStep], ?_, ?_, ?_, ?_⟩
  · rw [observeStep]
    simp only []
    rw [List.getD_eq_getElem?_getD, List.getElem?_set_self hslot]
    rfl
  · intro k hk hkne
    rw [observeStep]
    simp only []
    rw [List.getD_eq_getElem?_getD, List.getElem?_set_ne (fun he => hkne he.symm),
      ← List.getD_eq_getElem?_getD]
  · rw [observeStep]
    simp only [Bool.and_eq_true, decide_eq_true_iff]
    exact and_congr Iff.rfl (stdDevLE_iff_sqrt _ _)
  · intro hlt
    rw [observeStep]
    simp only [Bool.and_eq_true_iff]
    rw [decide_eq_false (Nat.not_le.mpr hlt), Bool.false_and]

theorem claim_C3_witness :
    (observeStep [1, 1, 1, 1, 1] [3, 3] 1 2 0).2 = false :=
  (claim_C3 [1, 1, 1, 1, 1] [3, 3] 1 2 0 (by decide) rfl).2.2.2.2 (by decide)

/-- C4: after one ranking phase the cost vector is sorted non-decreasingly,
the tour moved to population index 0 is one whose computed cost is minimal
among all population entries, and the underlying insertion sort is stable:
for every cost value, the pairs carrying that cost appear in the sorted
output in exactly their original index order. -/
theorem claim_C4 (cost_matrix : Nat → Nat → ℤ) (numNodes population best_num : Nat)
    (s : GAState) (hpop : 0 < population) (hbn : 0 < best_num)
    (hcopy : s.genCopy.length = population) :
    (rank_step cost_matrix numNodes population best_num s).cost.Pairwise
      (fun a b : ℤ => a ≤ b) ∧
    (∃ r, r < population ∧
      (rank_step cost_matrix numNodes population best_num s).gen.getD 0 [] =
        s.gen.getD r [] ∧
      (rank_step cost_matrix numNodes population best_num s).cost.getD 0 0 =
        (computedCosts s.cost s.gen cost_matrix numNodes population).getD r 0 ∧
      ∀ j, j < population →
        (computedCosts s.cost s.gen cost_matrix numNodes population).getD r 0 ≤
          (computedCosts s.cost s.gen cost_matrix numNodes population).getD j 0) ∧
    ∀ cst : ℤ,
      (sort_vector ((computedCosts s.cost s.gen cost_matrix numNodes population).zip
        (List.range population))).filter (fun p => decide (p.1 = cst)) =
      ((computedCosts s.cost s.gen cost_matrix numNodes population).zip
        (List.range population)).filter (fun p => decide (p.1 = cst)) :=
  ⟨rank_generation_cost_pairwise s.cost s.gen cost_matrix numNodes population,
   rank_step_head cost_matrix numNodes population best_num s hpop hbn hcopy,
   fun cst => sort_vector_filter _ cst⟩

theorem claim_C4_witness :
    (rank_step (fun i j : Nat => if i = j then 0 else 1) 2 5 2
      ⟨[[0,1],[1,0],[0,1],[1,0],[0,1]], [[0,1],[0,1],[0,1],[0,1],[0,1]],
       [0,0,0,0,0]⟩).cost.Pairwise (fun a b : ℤ => a ≤ b) :=
  (claim_C4 (fun i j : Nat => if i = j then 0 else 1) 2 5 2
    ⟨[[0,1],[1,0],[0,1],[1,0],[0,1]], [[0,1],[0,1],[0,1],[0,1],[0,1]],
     [0,0,0,0,0]⟩ (by decide) (by decide) rfl).1

/-- C5: the parent2 redraw loop only ever exits with a value different from
the slot index (and below best_num when best_num is positive); parent1 is
the slot index itself for the first best_num slots and otherwise a
pseudo-random index below best_num; and parent1 = parent2 is reachable. -/
theorem claim_C5 :
    (∀ (bound avoid : Nat) (ds : List Nat) (v : Nat),
      drawNe bound avoid ds = some v → v ≠ avoid ∧ (0 < bound → v < bound)) ∧
    (∀ (i best_num d : Nat), i < best_num → selectParent1 i best_num d = i) ∧
    (∀ (i best_num d : Nat), ¬ i < best_num → 0 < best_num →
      selectParent1 i best_num d = d % best_num ∧ selectParent1 i best_num d < best_num) ∧
    (∃ (best_num i d : Nat) (ds : List Nat) (v : Nat),
      selectParent1 i best_num d = v ∧ drawNe best_num i ds = some v) := by
  refine ⟨drawNe_some, ?_, ?_, ?_⟩
  · intro i bn d h
    rw [selectParent1, if_pos h]
  · intro i bn d h hbn
    rw [selectParent1, if_neg h]
    exact ⟨rfl, Nat.mod_lt _ hbn⟩
  · exact ⟨2, 2, 0, [0], 0, by decide, by decide⟩

theorem claim_C5_witness : (1 : Nat) ≠ 0 ∧ (0 < 2 → 1 < 2) :=
  claim_C5.1 2 0 [1] 1 (by decide)

/-- C6: when best_num equals population the engine returns right after the
first ranking: the solution is row 0 of the ranked population together
with cost entry 0, flagged not converged, independent of maxIt and of the
pseudo-random streams, and the run does not fail; moreover that row 0 is
an initial tour of minimal computed cost. -/
theorem claim_C6 (cost_matrix : Nat → Nat → ℤ) (numNodes population : Nat) (top : ℚ)
    (maxIt : Nat) (mutatProb : ℚ) (earlyStopRounds : Nat) (earlyStopParam : ℚ)
    (gen0 copy0 : List (List Nat)) (cost0 : List ℤ) (window0 : List ℚ)
    (rnd : Nat → Nat → SlotRand) (hdeg : bestNumOf population top = population)
    (hpop : 0 < population) (hcopy : copy0.length = population) :
    genetic_tsp cost_matrix numNodes population top maxIt mutatProb earlyStopRounds
        earlyStopParam gen0 copy0 cost0 window0 rnd =
      some ⟨((rank_step cost_matrix numNodes population (bestNumOf population top)
          ⟨gen0, copy0, cost0⟩).gen.getD 0 []).take numNodes,
        (rank_step cost_matrix numNodes population (bestNumOf population top)
          ⟨gen0, copy0, cost0⟩).cost.getD 0 0, false⟩ ∧
    ∃ r, r < population ∧
      ((rank_step cost_matrix numNodes population (bestNumOf population top)
          ⟨gen0, copy0, cost0⟩).gen.getD 0 []).take numNodes =
        (gen0.getD r []).take numNodes ∧
      (rank_step cost_matrix numNodes population (bestNumOf population top)
          ⟨gen0, copy0, cost0⟩).cost.getD 0 0 =
        (computedCosts cost0 gen0 cost_matrix numNodes population).getD r 0 ∧
      ∀ j, j < population →
        (computedCosts cost0 gen0 cost_matrix numNodes population).getD r 0 ≤
          (computedCosts cost0 gen0 cost_matrix numNodes population).getD j 0 := by
  constructor
  · unfold genetic_tsp
    rw [if_pos hdeg.symm]
  · have hbn : 0 < bestNumOf population top := by
      rw [hdeg]
      exact hpop
    obtain ⟨r, hrp, h0, hc, hmin⟩ := rank_step_head cost_matrix numNodes population
      (bestNumOf population top) ⟨gen0, copy0, cost0⟩ hpop hbn hcopy
    exact ⟨r, hrp, by rw [h0], hc, hmin⟩

theorem claim_C6_witness :
    genetic_tsp (fun i j : Nat => if i = j then 0 else 1) 2 1 1 3 0 1 0
        [[0, 1]] [[5, 5]] [0] [0] (fun _ _ => ⟨0, [0], 99, 0, [1]⟩) =
      some ⟨((rank_step (fun i j : Nat => if i = j then 0 else 1) 2 1 (bestNumOf 1 1)
          ⟨[[0, 1]], [[5, 5]], [0]⟩).gen.getD 0 []).take 2,
        (rank_step (fun i j : Nat => if i = j then 0 else 1) 2 1 (bestNumOf 1 1)
          ⟨[[0, 1]], [[5, 5]], [0]⟩).cost.getD 0 0, false⟩ :=
  (claim_C6 (fun i j : Nat => if i = j then 0 else 1) 2 1 1 3 0 1 0
    [[0, 1]] [[5, 5]] [0] [0] (fun _ _ => ⟨0, [0], 99, 0, [1]⟩)
    (by rw [bestNumOf]; norm_num) (by decide) rfl).1

/-- C7: generate leaves every elite row (index below best_num) of the
population buffer unchanged and returns a buffer of exactly population
rows; only the offspring region is written. -/
theorem claim_C7 (generation : List (List Nat)) (population best_num numNodes : Nat)
    (mutatProb : ℚ) (rnd : Nat → SlotRand) (gen2 : List (List Nat))
    (h : generate generation population best_num numNodes mutatProb rnd = some gen2) :
    gen2.length = population ∧
    ∀ r, r < best_num → r < population → gen2.getD r [] = generation.getD r [] := by
  obtain ⟨hlen, hget⟩ := generate_getD generation population best_num numNodes
    mutatProb rnd gen2 h
  exact ⟨hlen, fun r hrb hrp => (hget r hrp).1 hrb⟩

theorem claim_C7_witness :
    ([[0,1],[1,0],[0,1],[1,0]] : List (List Nat)).getD 0 [] =
      ([[0,1],[1,0],[9,9],[8,8]] : List (List Nat)).getD 0 [] :=
  (claim_C7 [[0,1],[1,0],[9,9],[8,8]] 4 2 2 0 (fun _ => ⟨1, [1, 0], 99, 0, [1]⟩)
    [[0,1],[1,0],[0,1],[1,0]]
    (by norm_num [generate, sequenceOpt, crossover_firstHalf_withMutation,
      crossover_core, drawNe, selectParent1, List.range_succ])).2 0 (by decide) (by decide)

/-- C8: every configuration meeting the section-6 constraints passes the
validation of main, but the converse direction of the claim fails: main
truncates the parsed earlyStopThreshold double into an int variable, so
the out-of-range threshold -1/2 truncates to 0 and passes validation even
though the specification requires rejection. -/
theorem claim_C8 :
    (∀ c : Config, specValid c → validate c = true) ∧
    (validate ⟨1, 2, 5, 1, 1, 0, 1, -(1/2)⟩ = true ∧
      ¬ specValid ⟨1, 2, 5, 1, 1, 0, 1, -(1/2)⟩) := by
  constructor
  · intro c h
    obtain ⟨h1, h2, h3, h4, h5, h6, h7, h8, h9, h10, h11⟩ := h
    have hA : ((AVGELEMS : Nat) : ℤ) = 5 := by norm_num [AVGELEMS]
    rw [validate]
    simp only [Bool.not_eq_true', decide_eq_false_iff_not]
    push_neg
    refine ⟨h1, h4, h5, ?_, ?_, h6, h7, h8, h10, h9, ?_⟩
    · rw [hA]
      exact h3
    · omega
    · rw [truncQ, if_pos h11]
      exact Int.floor_nonneg.mpr h11
  · constructor
    · rw [validate, truncQ]
      have hc : (-1 : ℤ) < ⌈-(1/2 : ℚ)⌉ := Int.lt_ceil.mpr (by norm_num)
      norm_num [AVGELEMS]
      omega
    · norm_num [specValid]

theorem claim_C8_witness : validate ⟨1, 2, 5, 1, 1, 0, 1, 0⟩ = true :=
  claim_C8.1 ⟨1, 2, 5, 1, 1, 0, 1, 0⟩ (by norm_num [specValid])

/-- C9: move_top swaps the two buffer pointers (the returned scratch buffer
is the old current buffer), copies only the best_num top-ranked rows into
the front of the new current buffer, leaves every later row of the new
current buffer holding whatever the scratch buffer held (stale data), and
generate never reads those stale rows: its output depends only on the
first best_num rows of the buffer it is given. -/
theorem claim_C9 :
    (∀ (rank : List Nat) (gen genCopy : List (List Nat)) (numNodes best_num : Nat),
      (move_top rank gen genCopy numNodes best_num).2 = gen) ∧
    (∀ (rank : List Nat) (gen genCopy : List (List Nat)) (numNodes best_num r : Nat),
      best_num ≤ r → r < genCopy.length →
      (move_top rank gen genCopy numNodes best_num).1.getD r [] = genCopy.getD r []) ∧
    (∀ (rank : List Nat) (gen genCopy : List (List Nat)) (numNodes best_num r : Nat),
      r < best_num → r < genCopy.length →
      (move_top rank gen genCopy numNodes best_num).1.getD r [] =
        gen.getD (rank.getD r 0) []) ∧
    (∀ (g1 g2 : List (List Nat)) (population best_num numNodes : Nat) (mutatProb : ℚ)
        (rnd : Nat → SlotRand), 0 < best_num →
      (∀ r, r < best_num → g1.getD r [] = g2.getD r []) →
      generate g1 population best_num numNodes mutatProb rnd =
        generate g2 population best_num numNodes mutatProb rnd) := by
  refine ⟨fun rank gen genCopy n bn => rfl, ?_, ?_, ?_⟩
  · intro rank gen genCopy n bn r hbr hrc
    rw [(move_top_spec rank gen genCopy n bn).2 r hrc, if_neg (Nat.not_lt.mpr hbr)]
  · intro rank gen genCopy n bn r hbr hrc
    rw [(move_top_spec rank gen genCopy n bn).2 r hrc, if_pos hbr]
  · intro g1 g2 pop bn n q rnd hbn hag
    exact generate_congr g1 g2 pop bn n q rnd hbn hag

theorem claim_C9_witness :
    (move_top [1, 0] [[1], [2]] [[3], [4]] 1 1).1.getD 1 [] =
      ([[3], [4]] : List (List Nat)).getD 1 [] :=
  claim_C9.2.1 [1, 0] [[1], [2]] [[3], [4]] 1 1 1 (by decide) (by decide)

/-- C10: the mutation trigger compares the draw value d%100+1, ranging over
1..100, against mutatProb*100, so over the 100 possible draws exactly
floor(mutatProb*100) trigger mutation; in particular no draw triggers for
any probability strictly below 1/100 or equal to 0, and every draw
triggers at probability 1. -/
theorem claim_C10 :
    (∀ p : ℚ, 0 ≤ p → p ≤ 1 →
      ((Finset.range 100).filter (fun d => mutationTriggered d p = true)).card =
        (⌊p * 100⌋).toNat) ∧
    (∀ p : ℚ, 0 < p → p < 1/100 → ∀ d, mutationTriggered d p = false) ∧
    (∀ d, mutationTriggered d 0 = false) ∧
    (∀ d, mutationTriggered d 1 = true) := by
  refine ⟨?_, ?_, ?_, ?_⟩
  · intro p hp0 hp1
    have key : ∀ d, d < 100 → (mutationTriggered d p = true ↔ (d : ℤ) < ⌊p * 100⌋) := by
      intro d hd
      rw [mutationTriggered, decide_eq_true_iff, Nat.mod_eq_of_lt hd]
      have hcast : ((d + 1 : Nat) : ℚ) = (((d : ℤ) + 1 : ℤ) : ℚ) := by push_cast; ring
      rw [hcast, ← Int.le_floor]
      omega
    have hfil : (Finset.range 100).filter (fun d => mutationTriggered d p = true) =
        (Finset.range 100).filter (fun d : Nat => ((d : ℤ) < ⌊p * 100⌋)) :=
      Finset.filter_congr (fun d hd => key d (Finset.mem_range.mp hd))
    have h100 : ⌊p * 100⌋ ≤ 100 := by
      have hle : p * 100 ≤ 100 := by nlinarith
      calc ⌊p * 100⌋ ≤ ⌊(100 : ℚ)⌋ := Int.floor_le_floor hle
        _ = 100 := by norm_num
    have hrange : (Finset.range 100).filter (fun d : Nat => ((d : ℤ) < ⌊p * 100⌋)) =
        Finset.range (min ((⌊p * 100⌋).toNat) 100) := by
      ext d
      simp only [Finset.mem_filter, Finset.mem_range, lt_min_iff]
      constructor
      · rintro ⟨hd1, hd2⟩
        exact ⟨Int.lt_toNat.mpr hd2, hd1⟩
      · rintro ⟨hd1, hd2⟩
        exact ⟨hd2, Int.lt_toNat.mp hd1⟩
    rw [hfil, hrange, Finset.card_range, min_eq_left (by omega)]
  · intro p hp0 hp1 d
    rw [mutationTriggered, decide_eq_false_iff_not]
    intro hle
    have hge : (1 : ℚ) ≤ ((d % 100 + 1 : Nat) : ℚ) := by
      push_cast
      have : (0 : ℚ) ≤ ((d % 100 : Nat) : ℚ) := by positivity
      linarith
    nlinarith
  · intro d
    rw [mutationTriggered, decide_eq_false_iff_not]
    intro hle
    have hge : (1 : ℚ) ≤ ((d % 100 + 1 : Nat) : ℚ) := by
      push_cast
      have : (0 : ℚ) ≤ ((d % 100 : Nat) : ℚ) := by positivity
      linarith
    nlinarith
  · intro d
    rw [mutationTriggered, decide_eq_true_iff, one_mul]
    have hlt : d % 100 < 100 := Nat.mod_lt d (by norm_num)
    have : ((d % 100 + 1 : Nat) : ℚ) ≤ ((100 : Nat) : ℚ) := by
      exact_mod_cast Nat.succ_le_of_lt hlt
    simpa using this

theorem claim_C10_witness :
    ((Finset.range 100).filter (fun d => mutationTriggered d (1/2) = true)).card =
      (⌊(1/2 : ℚ) * 100⌋).toNat :=
  claim_C10.1 (1/2) (by norm_num) (by norm_num)

end GeneticTsp
